import Mathlib

/-!
Shallow embedding of `gkr-protocol/src/circuit_builder.rs`: the Declarative
Builder (`CircuitBuilder::build_circuit`) of a layered arithmetic circuit.

The Rust function panics on structural errors; the embedding returns
`Except BuildError Circuit`, with one `BuildError` constructor per distinct
panic site (the five declared structural panics, plus the two runtime panics
a Rust debug build can raise in this function: out-of-bounds indexing and
`usize` subtraction overflow).
-/

namespace CircuitBuilderModel

/-- From `circuit_builder.rs`: the gate kind of one construction-time cell. -/
inductive CellGateType : Type where
  | Add : Nat → Nat → CellGateType
  | Mul : Nat → Nat → CellGateType
  | Witness : CellGateType
deriving DecidableEq, Repr

/-- From `circuit_builder.rs`: one node of the construction-time graph. -/
structure Cell : Type where
  index : Nat
  layer_id : Nat
  gate_type : CellGateType
deriving DecidableEq, Repr

/-- From `circuit_builder.rs`: the Declarative Builder's state. -/
structure CircuitBuilder : Type where
  cells : List Cell
  n_layer : Nat
  n_input : Nat
  n_output : Nat
deriving DecidableEq, Repr

/-- Modelled from the spec: `crate::circuit::GateType` is not under `src/`;
per spec §3 a Gate is "a binary operation tagged `Add` or `Mul`". -/
inductive GateType : Type where
  | Add : GateType
  | Mul : GateType
deriving DecidableEq, Repr

/-- Modelled from the spec: `crate::circuit::Gate` is not under `src/`;
per spec §3 it carries a tag and "two operand positions that are indices
within the adjacent input-ward layer".  The Rust constructor is
`Gate::new(gate_type, [l, r])`; the operand array is modelled as a pair. -/
structure Gate : Type where
  gate_type : GateType
  inputs : Nat × Nat
deriving DecidableEq, Repr

/-- Modelled from the spec: `crate::circuit::CircuitLayer` is not under
`src/`; per spec §3 it is "an ordered sequence of Gates". -/
structure CircuitLayer : Type where
  gates : List Gate
deriving DecidableEq, Repr

/-- Modelled from the spec: `crate::circuit::Circuit` is not under `src/`;
per spec §3 it is "an ordered sequence of CircuitLayers, ordered from the
output layer (index 0) down, plus an input count". -/
structure Circuit : Type where
  layers : List CircuitLayer
  num_inputs : Nat
deriving DecidableEq, Repr

/-- One constructor per distinct panic in `build_circuit`.  The first five
are the declared structural panics; `indexOOB` and `subOverflow` are the
runtime panics of a Rust debug build (out-of-bounds `Vec` indexing and
`usize` subtraction overflow). -/
inductive BuildError : Type where
  | nonConsecutive : BuildError
  | emptyLayer : Nat → BuildError
  | wrongInOut : BuildError
  | witnessCell : Nat → BuildError
  | noEnoughCell : Nat → BuildError
  | indexOOB : BuildError
  | subOverflow : BuildError
deriving DecidableEq, Repr

/-- The exact panic message of each error, from the `panic!` format strings
in `build_circuit` (for the two runtime panics, the Rust runtime's message
prefix). -/
def BuildError.message : BuildError → String
  | .nonConsecutive => "cell index is not consecutive"
  | .emptyLayer l => "have no cell in layer_" ++ toString l
  | .wrongInOut => "wrong number with input or output"
  | .witnessCell l => "exist witness cell in layer_" ++ toString l
  | .noEnoughCell l => "no enough cell in layer_" ++ toString l
  | .indexOOB => "index out of bounds"
  | .subOverflow => "attempt to subtract with overflow"

/-- Whether the error is one of the five declared structural panics of
`build_circuit` (as opposed to a runtime indexing/arithmetic panic). -/
def BuildError.structural : BuildError → Bool
  | .indexOOB => false
  | .subOverflow => false
  | _ => true

deriving instance DecidableEq for Except

/-- Rust `v[i]` on a `Vec`: the element, or the out-of-bounds panic. -/
def idx {α : Type} (l : List α) (i : Nat) : Except BuildError α :=
  if h : i < l.length then .ok (l.get ⟨i, h⟩) else .error .indexOOB

/-- Rust `a - b` on `usize` in a debug build: the difference, or the
subtraction-overflow panic. -/
def checkedSub (a b : Nat) : Except BuildError Nat :=
  if b ≤ a then .ok (a - b) else .error .subOverflow

/-- The comparison closure of line 32,
`a.layer_id.cmp(&b.layer_id).then(a.index.cmp(&b.index))`, as a `Bool`
"less or equal" for `mergeSort`. -/
def cellLe (a b : Cell) : Bool :=
  a.layer_id < b.layer_id || (a.layer_id == b.layer_id && a.index ≤ b.index)

/-- The comparison of line 32 as a decidable relation for the sort. -/
def cellRel (a b : Cell) : Prop := cellLe a b = true

instance : DecidableRel cellRel := fun a b => instDecidableEqBool (cellLe a b) true

instance : IsTotal Cell cellRel where
  total a b := by
    simp only [cellRel, cellLe, Bool.or_eq_true, Bool.and_eq_true, decide_eq_true_eq,
      beq_iff_eq] at *
    omega

instance : IsTrans Cell cellRel where
  trans a b c hab hbc := by
    simp only [cellRel, cellLe, Bool.or_eq_true, Bool.and_eq_true, decide_eq_true_eq,
      beq_iff_eq] at *
    omega

/-- Line 32: `cells.sort_by` on the lexicographic (layer_id, index) key.
`sort_by` is a stable sort; so is insertion sort.  (Stability is in fact
unobservable here: two cells can compare equal only when they share
(layer_id, index), and the walk below rejects every such collection.) -/
def sortCells (cs : List Cell) : List Cell :=
  List.insertionSort cellRel cs

/-- Lines 33–58: the validation walk over the sorted cells.  State: the
remaining cells, the current `layer`, the running `count` for that layer and
the accumulated `layer_count` vector.

The Rust `else` branch (lines 45–51) pushes `count`, resets it to 0, sets
`layer += 1` and re-examines the *same* cell via `ind -= 1; ind += 1`
(`ind -= 1` cannot underflow: `count > 0` requires an earlier `count += 1`
at a smaller `ind`).  That re-examination is expanded one step here so the
recursion is structural: with `count = 0`, the re-examined cell either has
`layer_id == layer + 1` (then line 40's index check against `count = 0`
runs and the walk continues), or it fails line 45's `count == 0` check,
panicking `empty layer (layer + 1)`. -/
def walkAux : List Cell → Nat → Nat → List Nat → Except BuildError (List Nat)
  | [], layer, count, acc =>
      -- lines 55–58: the final `count == 0` check and push
      if count = 0 then .error (.emptyLayer layer) else .ok (acc ++ [count])
  | c :: rest, layer, count, acc =>
      if c.layer_id = layer then
        -- lines 40–43
        if c.index ≠ count then .error .nonConsecutive
        else walkAux rest layer (count + 1) acc
      else
        -- lines 45–51, then the re-examination of `c` at `(layer + 1, 0)`
        if count = 0 then .error (.emptyLayer layer)
        else if c.layer_id = layer + 1 then
          if c.index ≠ 0 then .error .nonConsecutive
          else walkAux rest (layer + 1) 1 (acc ++ [count])
        else .error (.emptyLayer (layer + 1))

/-- Lines 70–84: how the projection pass handles one cell, given the
`layer_count` vector and the current layer `la`.  The operand bound is
`layer_count[la - 1]`. -/
def projectCell (lc : List Nat) (la : Nat) (c : Cell) : Except BuildError Gate :=
  match c.gate_type with
  | .Witness => .error (.witnessCell la)
  | .Add l r => do
      let m ← idx lc (la - 1)
      if l ≥ m ∨ r ≥ m then .error (.noEnoughCell (la - 1))
      else .ok ⟨.Add, (l, r)⟩
  | .Mul l r => do
      let m ← idx lc (la - 1)
      if l ≥ m ∨ r ≥ m then .error (.noEnoughCell (la - 1))
      else .ok ⟨.Mul, (l, r)⟩

/-- Lines 69–85: the inner loop `for j in layer_end - layer_count[la] ..
layer_end`, reading `cells[j]` and projecting each cell of the layer.  The
loop runs exactly `layer_end - start` times with `j = start, start + 1, …`;
the second argument is the remaining iteration count. -/
def projectLayer (cells : List Cell) (lc : List Nat) (la : Nat) :
    Nat → Nat → Except BuildError (List Gate)
  | _, 0 => pure []
  | j, n + 1 => do
      let c ← idx cells j
      let g ← projectCell lc la c
      let rest ← projectLayer cells lc la (j + 1) n
      pure (g :: rest)

/-- Lines 64–88: the outer loop `for i in 1..self.n_layer` with
`la = self.n_layer - i`, i.e. `la` descending from `n_layer - 1` to `1`,
together with the running `layer_end` (decremented by `layer_count[la]`
after each layer).  Rust evaluates `layer_count[la]` first (possible
out-of-bounds panic), then the subtraction `layer_end - layer_count[la]`
(possible overflow panic in a debug build). -/
def projectLoop (cells : List Cell) (lc : List Nat) :
    Nat → Nat → Except BuildError (List CircuitLayer)
  | 0, _ => pure []
  | la + 1, layerEnd => do
      let cnt ← idx lc (la + 1)
      let start ← checkedSub layerEnd cnt
      let g ← projectLayer cells lc (la + 1) start (layerEnd - start)
      let rest ← projectLoop cells lc la start
      pure (⟨g⟩ :: rest)

/-- Lines 30–90: `CircuitBuilder::build_circuit`.  After the walk, line 59
reads `layer_count[0]` and `layer_count[layer]`; the loop variable `layer`
at that point equals `layer_count.len() - 1` (each `else`-branch push is
followed by `layer += 1` and the final push is not), so it is written as
`lc.length - 1` here.  Line 63 then sets `num_inputs = layer_count[0]`,
the same value as checked. -/
def build_circuit (b : CircuitBuilder) : Except BuildError Circuit := do
  let cells := sortCells b.cells
  let lc ← walkAux cells 0 0 []
  let c0 ← idx lc 0
  let ctop ← idx lc (lc.length - 1)
  if c0 ≠ b.n_input ∨ ctop ≠ b.n_output then .error .wrongInOut
  else do
    let layers ← projectLoop cells lc (b.n_layer - 1) cells.length
    pure ⟨layers, c0⟩

/-- The cells of `cs` lying on layer `ℓ`. -/
def layerCells (cs : List Cell) (ℓ : Nat) : List Cell :=
  cs.filter (fun c => c.layer_id == ℓ)

/-- Layer `ℓ` of `cs` is consecutively indexed: its cells' indices are a
permutation of `0, 1, …, count - 1`. -/
def ConsecLayer (cs : List Cell) (ℓ : Nat) : Prop :=
  ((layerCells cs ℓ).map Cell.index).Perm (List.range (layerCells cs ℓ).length)

instance (cs : List Cell) (ℓ : Nat) : Decidable (ConsecLayer cs ℓ) :=
  List.decidablePerm _ _

/-- The operand-validity invariant of a `Circuit` (spec §3): every gate's
operand positions in layer `i` are valid indices into layer `i + 1`, and in
the deepest layer they are below `num_inputs`. -/
def chainOk : List CircuitLayer → Nat → Bool
  | [], _ => true
  | [l], ninp =>
      l.gates.all (fun g => decide (g.inputs.1 < ninp) && decide (g.inputs.2 < ninp))
  | l :: l' :: rest, ninp =>
      l.gates.all (fun g =>
        decide (g.inputs.1 < l'.gates.length) && decide (g.inputs.2 < l'.gates.length))
      && chainOk (l' :: rest) ninp

/-- Spec §3 Circuit invariant, as a decidable check on a whole `Circuit`. -/
def Circuit.wellFormed (c : Circuit) : Bool :=
  chainOk c.layers c.num_inputs

/-- `build_circuit` takes `&self` in Rust (an immutable borrow) and works on
a clone of `self.cells` (line 31): a call returns a value and leaves the
builder state untouched.  This function is that call-with-state view: the
result paired with the builder state after the call. -/
def buildCall (b : CircuitBuilder) : Except BuildError Circuit × CircuitBuilder :=
  (build_circuit b, b)

/-! ### Concrete fixtures (from the repository's tests and hand-built
counterexample inputs) -/

/-- The cell collection of `tests::test_circuit_build`. -/
def testCells : List Cell :=
  [⟨0, 2, .Mul 0 1⟩, ⟨1, 2, .Mul 2 3⟩,
   ⟨0, 1, .Mul 0 0⟩, ⟨1, 1, .Mul 1 1⟩, ⟨2, 1, .Mul 1 2⟩, ⟨3, 1, .Mul 3 3⟩,
   ⟨0, 0, .Witness⟩, ⟨1, 0, .Witness⟩, ⟨2, 0, .Witness⟩, ⟨3, 0, .Witness⟩]

/-- The builder of `tests::test_circuit_build`:
`CircuitBuilder::new(cells, 3, 4, 2)`. -/
def testBuilder : CircuitBuilder := ⟨testCells, 3, 4, 2⟩

/-- The expected circuit `c0` of `tests::test_circuit_build`. -/
def testCircuit : Circuit :=
  ⟨[⟨[⟨.Mul, (0, 1)⟩, ⟨.Mul, (2, 3)⟩]⟩,
    ⟨[⟨.Mul, (0, 0)⟩, ⟨.Mul, (1, 1)⟩, ⟨.Mul, (1, 2)⟩, ⟨.Mul, (3, 3)⟩]⟩],
   4⟩

/-- The cell collection of `tests::test_circuit_build_panic1`: layer 1 has
indices 0, 1, 2, 6, violating consecutiveness at layer 1. -/
def panic1Cells : List Cell :=
  [⟨0, 2, .Mul 0 1⟩, ⟨1, 2, .Mul 2 3⟩,
   ⟨0, 1, .Mul 0 0⟩, ⟨1, 1, .Mul 1 1⟩, ⟨2, 1, .Mul 1 2⟩, ⟨6, 1, .Mul 3 3⟩,
   ⟨0, 0, .Witness⟩, ⟨1, 0, .Witness⟩, ⟨2, 0, .Witness⟩, ⟨3, 0, .Witness⟩]

/-- Builder whose layers 0 and 1 are populated but whose layer 2 is empty
while `n_layer = 3` (a trailing empty layer); input and output counts match
the populated layers. -/
def trailingBuilder : CircuitBuilder :=
  ⟨[⟨0, 0, .Witness⟩, ⟨0, 1, .Add 0 0⟩], 3, 1, 1⟩

/-- Builder with an empty layer 1 below a non-consecutively indexed
layer 2 (its only cell has index 5). -/
def maskedBuilder : CircuitBuilder :=
  ⟨[⟨0, 0, .Witness⟩, ⟨5, 2, .Add 0 0⟩], 3, 1, 1⟩

/-- Builder with populated layers 0, 1, 2, 3 but declared `n_layer = 3`:
the count of layer `n_layer - 1 = 2` is 1 while `n_output = 2`, yet the
count of the highest populated layer 3 is 2. -/
def extraLayerBuilder : CircuitBuilder :=
  ⟨[⟨0, 0, .Witness⟩, ⟨0, 1, .Add 0 0⟩, ⟨0, 2, .Add 0 0⟩,
    ⟨0, 3, .Add 0 0⟩, ⟨1, 3, .Add 0 0⟩], 3, 1, 2⟩

/-- A cell of the projection pass is "good" for lower-layer size `m` when it
is an Add/Mul gate with both operands below `m` — exactly the cells lines
70–84 accept without panicking. -/
def goodCell (m : Nat) (c : Cell) : Bool :=
  match c.gate_type with
  | .Witness => false
  | .Add l r => decide (l < m) && decide (r < m)
  | .Mul l r => decide (l < m) && decide (r < m)

/-- The gate emitted by lines 76/82 for a non-witness cell: same kind, both
operand indices unchanged.  The `Witness` branch is never reached on cells
satisfying `goodCell` (line 71 panics on witness cells instead). -/
def cellGate (c : Cell) : Gate :=
  match c.gate_type with
  | .Witness => ⟨.Add, (0, 0)⟩
  | .Add l r => ⟨.Add, (l, r)⟩
  | .Mul l r => ⟨.Mul, (l, r)⟩

/-- Builder with an empty layer 1 strictly below the populated layer 2,
every populated layer consecutively indexed. -/
def gapBuilder : CircuitBuilder :=
  ⟨[⟨0, 0, .Witness⟩, ⟨0, 2, .Add 0 0⟩], 3, 1, 1⟩

/-- Builder whose cell list contains two distinct cells with the same
(layer id, index) descriptor (0, 0). -/
def dupBuilder : CircuitBuilder :=
  ⟨[⟨0, 0, .Witness⟩, ⟨0, 0, .Witness⟩], 1, 2, 2⟩

/-- A two-cell sorted collection (one witness at layer 0, one Add gate at
layer 1) used to instantiate the projection-pass theorem concretely. -/
def c3cells : List Cell := [⟨0, 0, .Witness⟩, ⟨0, 1, .Add 0 0⟩]

/-- C2: on the cell collection of the concrete scenario (four witnesses at
layer 0, four Mul cells at layer 1, two Mul cells at layer 2, total layer
count 3, declared input count 4, output count 2), `build_circuit` returns
the circuit whose output layer is `[Mul(0,1), Mul(2,3)]`, whose next layer
is `[Mul(0,0), Mul(1,1), Mul(1,2), Mul(3,3)]`, and whose input count is 4. -/
theorem c2_concrete_scenario :
    build_circuit testBuilder = .ok testCircuit := by
  decide

/-- C8: `build_circuit` is deterministic and idempotent.  Calling it twice
on the same builder state with no mutations in between yields structurally
identical circuits, and the call leaves the builder's state (cells, layer
count, declared input and output counts) unchanged. -/
theorem c8_idempotent (b : CircuitBuilder) :
    (buildCall b).1 = (buildCall (buildCall b).2).1 ∧
    (buildCall b).2 = b ∧ (buildCall (buildCall b).2).2 = b :=
  ⟨rfl, rfl, rfl⟩

/-- C4 counterexample: a builder whose layer 2 is empty while
`total_layer_count = 3` — but whose populated layers 0 and 1 are well
formed and match the declared input/output counts — makes `build_circuit`
fail with the out-of-bounds indexing panic of the projection pass, not with
the "empty layer" structural error, refuting the claim that every empty
layer below `total_layer_count` (including trailing ones) is reported as
the "empty layer" error. -/
theorem c4_cex_trailing_empty_layer :
    layerCells trailingBuilder.cells 2 = [] ∧ 2 < trailingBuilder.n_layer ∧
    build_circuit trailingBuilder = .error .indexOOB := by
  decide

/-- C6 counterexample: a collection violating per-layer index
consecutiveness (its only layer-2 cell has index 5) on which the call
nevertheless fails with the "empty layer" error for the empty layer 1, not
with the "non-consecutive index" error: the empty layer is encountered by
the walk before the violating cell. -/
theorem c6_cex_masked_by_empty_layer :
    ¬ ConsecLayer maskedBuilder.cells 2 ∧
    build_circuit maskedBuilder = .error (.emptyLayer 1) := by
  decide

/-- C7 counterexample: a builder whose cells populate layers 0..3 while
`total_layer_count = 3`: the cell count of layer `total_layer_count - 1 = 2`
is 1 ≠ 2 = declared output count, yet `build_circuit` succeeds — the code
compares the declared output count against the count of the highest layer
id actually present (layer 3), not of layer `total_layer_count - 1`. -/
theorem c7_cex_checks_highest_present_layer :
    (layerCells extraLayerBuilder.cells (extraLayerBuilder.n_layer - 1)).length ≠
      extraLayerBuilder.n_output ∧
    build_circuit extraLayerBuilder =
      .ok ⟨[⟨[⟨.Add, (0, 0)⟩]⟩, ⟨[⟨.Add, (0, 0)⟩]⟩], 1⟩ := by
  decide

/-- C5 counterexample: on the cell collection of
`tests::test_circuit_build_panic1` (consecutiveness violated at layer 1 by
the cell with index 6), `build_circuit` fails with the non-consecutive-index
error, whose reported message "cell index is not consecutive" does not
contain the layer id 1 of the violation — refuting the claim that every
failure carries the layer id of the violation. -/
theorem c5_cex_nonconsecutive_has_no_layer_id :
    build_circuit ⟨panic1Cells, 3, 4, 2⟩ = .error .nonConsecutive ∧
    ¬ (toString 1).toList <:+: (BuildError.message .nonConsecutive).toList := by
  decide

/-! ### Helper lemmas about `layerCells` -/

theorem layerCells_nil (ℓ : Nat) : layerCells [] ℓ = [] := rfl

theorem layerCells_cons (c : Cell) (cs : List Cell) (ℓ : Nat) :
    layerCells (c :: cs) ℓ =
      if c.layer_id = ℓ then c :: layerCells cs ℓ else layerCells cs ℓ := by
  by_cases h : c.layer_id = ℓ
  · simp [layerCells, List.filter_cons, h]
  · simp [layerCells, List.filter_cons, h]

theorem layerCells_cons_of_eq {c : Cell} {ℓ : Nat} (h : c.layer_id = ℓ)
    (cs : List Cell) : layerCells (c :: cs) ℓ = c :: layerCells cs ℓ := by
  rw [layerCells_cons, if_pos h]

theorem layerCells_cons_of_ne {c : Cell} {ℓ : Nat} (h : c.layer_id ≠ ℓ)
    (cs : List Cell) : layerCells (c :: cs) ℓ = layerCells cs ℓ := by
  rw [layerCells_cons, if_neg h]

/-- Filtering a permutation gives permuted layers. -/
theorem layerCells_perm {cs cs' : List Cell} (h : cs.Perm cs') (ℓ : Nat) :
    (layerCells cs ℓ).Perm (layerCells cs' ℓ) :=
  h.filter _

/-- `sortCells` is a permutation of the input (line 32 only reorders). -/
theorem sortCells_perm (cs : List Cell) : (sortCells cs).Perm cs :=
  List.perm_insertionSort cellRel cs

/-- `sortCells` output is pairwise `cellRel`-ordered. -/
theorem sortCells_sorted (cs : List Cell) : (sortCells cs).Pairwise cellRel :=
  List.sorted_insertionSort cellRel cs

/-- `ConsecLayer` only depends on the multiset of cells. -/
theorem ConsecLayer.of_perm {cs cs' : List Cell} (h : cs.Perm cs') {ℓ : Nat}
    (hc : ConsecLayer cs ℓ) : ConsecLayer cs' ℓ := by
  unfold ConsecLayer at *
  have hp := layerCells_perm h ℓ
  have h1 : ((layerCells cs' ℓ).map Cell.index).Perm ((layerCells cs ℓ).map Cell.index) :=
    (hp.map Cell.index).symm
  have h2 := h1.trans hc
  rwa [hp.length_eq] at h2

/-! ### The validation walk: characterization lemmas -/

/-- If the walk accepts, then (i) no remaining cell lies below the current
layer, (ii) the remaining cells of the current layer carry, in list order,
exactly the indices `count, count + 1, …`, and (iii) every higher layer's
remaining cells carry exactly the indices `0, 1, …`. -/
theorem walk_ok_filters {cs : List Cell} {layer count : Nat} {acc lc : List Nat}
    (h : walkAux cs layer count acc = .ok lc) :
    (∀ ℓ, ℓ < layer → layerCells cs ℓ = []) ∧
    ((layerCells cs layer).map Cell.index =
      List.range' count (layerCells cs layer).length) ∧
    (∀ ℓ, layer < ℓ → (layerCells cs ℓ).map Cell.index =
      List.range (layerCells cs ℓ).length) := by
  induction cs generalizing layer count acc lc with
  | nil =>
      refine ⟨fun ℓ _ => rfl, rfl, fun ℓ _ => rfl⟩
  | cons c rest ih =>
      rw [walkAux] at h
      by_cases hc : c.layer_id = layer
      · rw [if_pos hc] at h
        by_cases hi : c.index ≠ count
        · rw [if_pos hi] at h; exact absurd h (by simp)
        · rw [if_neg hi] at h
          push_neg at hi
          obtain ⟨h1, h2, h3⟩ := ih h
          refine ⟨fun ℓ hℓ => ?_, ?_, fun ℓ hℓ => ?_⟩
          · rw [layerCells_cons_of_ne (by omega)]; exact h1 ℓ hℓ
          · rw [layerCells_cons_of_eq hc]
            simp only [List.map_cons, List.length_cons]
            rw [hi, h2, List.range'_succ]
          · rw [layerCells_cons_of_ne (by omega)]; exact h3 ℓ hℓ
      · rw [if_neg hc] at h
        by_cases h0 : count = 0
        · rw [if_pos h0] at h; exact absurd h (by simp)
        · rw [if_neg h0] at h
          by_cases hc1 : c.layer_id = layer + 1
          · rw [if_pos hc1] at h
            by_cases hi : c.index ≠ 0
            · rw [if_pos hi] at h; exact absurd h (by simp)
            · rw [if_neg hi] at h
              push_neg at hi
              obtain ⟨h1, h2, h3⟩ := ih h
              refine ⟨fun ℓ hℓ => ?_, ?_, fun ℓ hℓ => ?_⟩
              · rw [layerCells_cons_of_ne (by omega)]; exact h1 ℓ (by omega)
              · rw [layerCells_cons_of_ne (by omega), h1 layer (by omega)]
                rfl
              · by_cases he : ℓ = layer + 1
                · subst he
                  rw [layerCells_cons_of_eq hc1]
                  simp only [List.map_cons, List.length_cons]
                  rw [hi, h2, List.range_eq_range']
                  rfl
                · rw [layerCells_cons_of_ne (by omega)]
                  exact h3 ℓ (by omega)
          · rw [if_neg hc1] at h; exact absurd h (by simp)

/-- The walk itself can only fail with the non-consecutive-index or the
empty-layer panic. -/
theorem walk_error_shape {cs : List Cell} {layer count : Nat} {acc : List Nat}
    {e : BuildError} (h : walkAux cs layer count acc = .error e) :
    e = .nonConsecutive ∨ ∃ g, e = .emptyLayer g := by
  induction cs generalizing layer count acc with
  | nil =>
      rw [walkAux] at h
      by_cases h0 : count = 0
      · rw [if_pos h0] at h
        injection h with h'
        exact .inr ⟨layer, h'.symm⟩
      · rw [if_neg h0] at h; exact absurd h (by simp)
  | cons c rest ih =>
      rw [walkAux] at h
      by_cases hc : c.layer_id = layer
      · rw [if_pos hc] at h
        by_cases hi : c.index ≠ count
        · rw [if_pos hi] at h
          injection h with h'
          exact .inl h'.symm
        · rw [if_neg hi] at h; exact ih h
      · rw [if_neg hc] at h
        by_cases h0 : count = 0
        · rw [if_pos h0] at h
          injection h with h'
          exact .inr ⟨layer, h'.symm⟩
        · rw [if_neg h0] at h
          by_cases hc1 : c.layer_id = layer + 1
          · rw [if_pos hc1] at h
            by_cases hi : c.index ≠ 0
            · rw [if_pos hi] at h
              injection h with h'
              exact .inl h'.symm
            · rw [if_neg hi] at h; exact ih h
          · rw [if_neg hc1] at h
            injection h with h'
            exact .inr ⟨layer + 1, h'.symm⟩

/-- If the walk accepts, the produced vector extends `acc` by one positive
count per layer: entry `k` is the number of remaining cells on layer
`layer + k` (plus the running `count` for `k = 0`), and no remaining cell
lies on or above layer `layer + tl.length`. -/
theorem walk_counts {cs : List Cell} {layer count : Nat} {acc lc : List Nat}
    (h : walkAux cs layer count acc = .ok lc) :
    ∃ tl : List Nat, lc = acc ++ tl ∧ 0 < tl.length ∧
      tl.getD 0 0 = count + (layerCells cs layer).length ∧
      (∀ k, 0 < k → k < tl.length → tl.getD k 0 = (layerCells cs (layer + k)).length) ∧
      (∀ k, k < tl.length → 0 < tl.getD k 0) ∧
      (∀ ℓ, layer + tl.length ≤ ℓ → layerCells cs ℓ = []) := by
  induction cs generalizing layer count acc lc with
  | nil =>
      rw [walkAux] at h
      by_cases h0 : count = 0
      · rw [if_pos h0] at h; exact absurd h (by simp)
      · rw [if_neg h0] at h
        injection h with h'
        refine ⟨[count], h'.symm, by simp, by simp [layerCells], ?_, ?_, fun ℓ _ => rfl⟩
        · intro k hk hk'
          simp only [List.length_singleton] at hk'
          omega
        · intro k hk
          simp only [List.length_singleton] at hk
          have hk0 : k = 0 := by omega
          subst hk0
          simpa using Nat.pos_of_ne_zero h0
  | cons c rest ih =>
      rw [walkAux] at h
      by_cases hc : c.layer_id = layer
      · rw [if_pos hc] at h
        by_cases hi : c.index ≠ count
        · rw [if_pos hi] at h; exact absurd h (by simp)
        · rw [if_neg hi] at h
          obtain ⟨tl, h1, h2, h3, h4, h5, h6⟩ := ih h
          refine ⟨tl, h1, h2, ?_, fun k hk hk' => ?_, h5, fun ℓ hℓ => ?_⟩
          · rw [h3, layerCells_cons_of_eq hc]
            simp only [List.length_cons]
            omega
          · rw [h4 k hk hk', layerCells_cons_of_ne (by omega)]
          · rw [layerCells_cons_of_ne (by omega)]
            exact h6 ℓ hℓ
      · rw [if_neg hc] at h
        by_cases h0 : count = 0
        · rw [if_pos h0] at h; exact absurd h (by simp)
        · rw [if_neg h0] at h
          by_cases hc1 : c.layer_id = layer + 1
          · rw [if_pos hc1] at h
            by_cases hi : c.index ≠ 0
            · rw [if_pos hi] at h; exact absurd h (by simp)
            · rw [if_neg hi] at h
              have hfilters := walk_ok_filters h
              obtain ⟨tl', h1, h2, h3, h4, h5, h6⟩ := ih h
              have hrest0 : layerCells rest layer = [] := hfilters.1 layer (by omega)
              refine ⟨count :: tl', by simpa using h1, by simp, ?_,
                fun k hk hk' => ?_, fun k hk => ?_, fun ℓ hℓ => ?_⟩
              · rw [List.getD_cons_zero, layerCells_cons_of_ne (by omega), hrest0]
                rfl
              · obtain ⟨k', rfl⟩ : ∃ k', k = k' + 1 := ⟨k - 1, by omega⟩
                rw [List.getD_cons_succ]
                by_cases hk0 : k' = 0
                · subst hk0
                  rw [h3, layerCells_cons_of_eq (show c.layer_id = layer + 1 from hc1)]
                  simp only [List.length_cons]
                  omega
                · simp only [List.length_cons] at hk'
                  rw [h4 k' (by omega) (by omega),
                    layerCells_cons_of_ne (by omega)]
                  have e : layer + (k' + 1) = layer + 1 + k' := by omega
                  rw [e]
              · obtain ⟨k', rfl⟩ | rfl : (∃ k', k = k' + 1) ∨ k = 0 := by
                  rcases k with _ | k'
                  · exact .inr rfl
                  · exact .inl ⟨k', rfl⟩
                · simp only [List.length_cons] at hk
                  rw [List.getD_cons_succ]
                  exact h5 k' (by omega)
                · rw [List.getD_cons_zero]
                  exact Nat.pos_of_ne_zero h0
              · simp only [List.length_cons] at hℓ
                rw [layerCells_cons_of_ne (by omega)]
                exact h6 ℓ (by omega)
          · rw [if_neg hc1] at h; exact absurd h (by simp)

theorem cellRel_layer_le {a b : Cell} (h : cellRel a b) : a.layer_id ≤ b.layer_id := by
  simp only [cellRel, cellLe, Bool.or_eq_true, Bool.and_eq_true, decide_eq_true_eq,
    beq_iff_eq] at h
  omega

theorem cellRel_index_le {a b : Cell} (h : cellRel a b) (hl : a.layer_id = b.layer_id) :
    a.index ≤ b.index := by
  simp only [cellRel, cellLe, Bool.or_eq_true, Bool.and_eq_true, decide_eq_true_eq,
    beq_iff_eq] at h
  omega

theorem mem_layerCells {d : Cell} {cs : List Cell} {ℓ : Nat} :
    d ∈ layerCells cs ℓ ↔ d ∈ cs ∧ d.layer_id = ℓ := by
  simp [layerCells, List.mem_filter]

/-- In a `cellRel`-sorted list whose layer-`ℓ` cells carry a permutation of
the indices `cnt, cnt + 1, …`, a head cell of layer `ℓ` carries exactly the
index `cnt`. -/
theorem head_index_eq {c : Cell} {rest : List Cell} {ℓ cnt : Nat}
    (hs : (c :: rest).Pairwise cellRel) (hc : c.layer_id = ℓ)
    (hperm : ((layerCells (c :: rest) ℓ).map Cell.index).Perm
      (List.range' cnt (layerCells (c :: rest) ℓ).length)) :
    c.index = cnt := by
  have hfe : layerCells (c :: rest) ℓ = c :: layerCells rest ℓ :=
    layerCells_cons_of_eq hc rest
  have hlen : 0 < (layerCells (c :: rest) ℓ).length := by rw [hfe]; simp
  -- `cnt` occurs among the indices of the layer-`ℓ` cells
  have hcnt_mem : cnt ∈ (layerCells (c :: rest) ℓ).map Cell.index := by
    apply hperm.mem_iff.mpr
    exact List.mem_range'.mpr ⟨0, hlen, by omega⟩
  -- `c.index` is one of the values `cnt, cnt + 1, …`
  have hc_mem : c.index ∈ List.range' cnt (layerCells (c :: rest) ℓ).length := by
    apply hperm.mem_iff.mp
    exact List.mem_map_of_mem Cell.index (by rw [hfe]; exact List.mem_cons_self c _)
  obtain ⟨i, _, hi⟩ := List.mem_range'.mp hc_mem
  have hge : cnt ≤ c.index := by omega
  -- some cell `d` of layer `ℓ` has index `cnt`; by sortedness `c.index ≤ d.index`
  obtain ⟨d, hd_mem, hd_idx⟩ := List.mem_map.mp hcnt_mem
  rw [hfe] at hd_mem
  rcases List.mem_cons.mp hd_mem with rfl | hd_rest
  · omega
  · have hd_in_rest : d ∈ rest := (mem_layerCells.mp hd_rest).1
    have hd_layer : d.layer_id = ℓ := (mem_layerCells.mp hd_rest).2
    have hrel : cellRel c d := (List.pairwise_cons.mp hs).1 d hd_in_rest
    have := cellRel_index_le hrel (by omega)
    omega

/-- On a sorted list all of whose layers are consecutively indexed (as
multisets), the walk never fails with the non-consecutive-index panic: it
either accepts or reports an empty layer. -/
theorem walk_sorted_consec {cs : List Cell} {layer count : Nat} {acc : List Nat}
    (hs : cs.Pairwise cellRel)
    (hge : ∀ c ∈ cs, layer ≤ c.layer_id)
    (hcur : ((layerCells cs layer).map Cell.index).Perm
      (List.range' count (layerCells cs layer).length))
    (habove : ∀ ℓ, layer < ℓ → ((layerCells cs ℓ).map Cell.index).Perm
      (List.range (layerCells cs ℓ).length)) :
    (∃ lc, walkAux cs layer count acc = .ok lc) ∨
    (∃ g, walkAux cs layer count acc = .error (.emptyLayer g)) := by
  induction cs generalizing layer count acc with
  | nil =>
      rw [walkAux]
      by_cases h0 : count = 0
      · rw [if_pos h0]; exact .inr ⟨layer, rfl⟩
      · rw [if_neg h0]; exact .inl ⟨acc ++ [count], rfl⟩
  | cons c rest ih =>
      rw [walkAux]
      have hs' : rest.Pairwise cellRel := (List.pairwise_cons.mp hs).2
      by_cases hc : c.layer_id = layer
      · have hidx : c.index = count := head_index_eq hs hc hcur
        rw [if_pos hc, if_neg (by omega)]
        have hfe : layerCells (c :: rest) layer = c :: layerCells rest layer :=
          layerCells_cons_of_eq hc rest
        apply ih hs'
        · exact fun d hd => hge d (List.mem_cons_of_mem c hd)
        · have : ((layerCells (c :: rest) layer).map Cell.index).Perm
              (count :: List.range' (count + 1) (layerCells rest layer).length) := by
            rw [hfe] at hcur ⊢
            simpa [List.range'_succ] using hcur
          rw [hfe] at this
          simp only [List.map_cons, hidx] at this
          exact this.cons_inv
        · intro ℓ hℓ
          have := habove ℓ hℓ
          rwa [layerCells_cons_of_ne (by omega)] at this
      · by_cases h0 : count = 0
        · rw [if_neg hc, if_pos h0]; exact .inr ⟨layer, rfl⟩
        · rw [if_neg hc, if_neg h0]
          by_cases hc1 : c.layer_id = layer + 1
          · have hperm1 : ((layerCells (c :: rest) (layer + 1)).map Cell.index).Perm
                (List.range' 0 (layerCells (c :: rest) (layer + 1)).length) := by
              have := habove (layer + 1) (by omega)
              rwa [List.range_eq_range'] at this
            have hidx : c.index = 0 := head_index_eq hs hc1 hperm1
            rw [if_pos hc1, if_neg (by omega)]
            have hfe : layerCells (c :: rest) (layer + 1) =
                c :: layerCells rest (layer + 1) := layerCells_cons_of_eq hc1 rest
            apply ih hs'
            · intro d hd
              have := cellRel_layer_le ((List.pairwise_cons.mp hs).1 d hd)
              omega
            · have : ((layerCells (c :: rest) (layer + 1)).map Cell.index).Perm
                  (0 :: List.range' 1 (layerCells rest (layer + 1)).length) := by
                rw [hfe] at hperm1 ⊢
                simpa [List.range'_succ] using hperm1
              rw [hfe] at this
              simp only [List.map_cons, hidx] at this
              exact this.cons_inv
            · intro ℓ hℓ
              have := habove ℓ (by omega)
              rwa [layerCells_cons_of_ne (by omega)] at this
          · rw [if_neg hc1]; exact .inr ⟨layer + 1, rfl⟩

/-- If the walk accepts, the counts it produced on top of `acc` sum to
`count` plus the number of remaining cells. -/
theorem walk_sum {cs : List Cell} {layer count : Nat} {acc lc : List Nat}
    (h : walkAux cs layer count acc = .ok lc) :
    lc.sum = acc.sum + count + cs.length := by
  induction cs generalizing layer count acc lc with
  | nil =>
      rw [walkAux] at h
      by_cases h0 : count = 0
      · rw [if_pos h0] at h; exact absurd h (by simp)
      · rw [if_neg h0] at h
        injection h with h'
        simp [h'.symm]
  | cons c rest ih =>
      rw [walkAux] at h
      by_cases hc : c.layer_id = layer
      · rw [if_pos hc] at h
        by_cases hi : c.index ≠ count
        · rw [if_pos hi] at h; exact absurd h (by simp)
        · rw [if_neg hi] at h
          have := ih h
          simp only [List.length_cons]
          omega
      · rw [if_neg hc] at h
        by_cases h0 : count = 0
        · rw [if_pos h0] at h; exact absurd h (by simp)
        · rw [if_neg h0] at h
          by_cases hc1 : c.layer_id = layer + 1
          · rw [if_pos hc1] at h
            by_cases hi : c.index ≠ 0
            · rw [if_pos hi] at h; exact absurd h (by simp)
            · rw [if_neg hi] at h
              have := ih h
              simp only [List.sum_append, List.sum_cons, List.sum_nil,
                List.length_cons] at this ⊢
              omega
          · rw [if_neg hc1] at h; exact absurd h (by simp)

/-! ### Indexing and projection lemmas -/

theorem idx_eq_ok {α : Type} {l : List α} {i : Nat} (h : i < l.length) :
    idx l i = .ok l[i] := by
  simp [idx, h, List.get_eq_getElem]

theorem idx_ok_inv {α : Type} {l : List α} {i : Nat} {a : α}
    (h : idx l i = .ok a) : i < l.length ∧ l[i]? = some a := by
  unfold idx at h
  split at h
  · next h' =>
      injection h with h''
      exact ⟨h', by simp [List.getElem?_eq_getElem h', ← h'', List.get_eq_getElem]⟩
  · exact absurd h (by simp)

theorem checkedSub_eq_ok {a b : Nat} (h : b ≤ a) : checkedSub a b = .ok (a - b) := by
  simp [checkedSub, h]

theorem checkedSub_ok_inv {a b s : Nat} (h : checkedSub a b = .ok s) :
    b ≤ a ∧ s = a - b := by
  unfold checkedSub at h
  split at h
  · next h' => injection h with h''; exact ⟨h', h''.symm⟩
  · exact absurd h (by simp)

theorem getD_eq_getElem {α : Type} {l : List α} {i : Nat} (h : i < l.length) (d : α) :
    l.getD i d = l[i] := by
  simp [List.getElem?_eq_getElem h]

@[simp] theorem exceptBind_ok {ε α β : Type} (a : α) (f : α → Except ε β) :
    (Except.ok a : Except ε α) >>= f = f a := rfl

@[simp] theorem exceptBind_error {ε α β : Type} (e : ε) (f : α → Except ε β) :
    (Except.error e : Except ε α) >>= f = .error e := rfl

theorem projectCell_eq_witness {lc : List Nat} {la : Nat} {c : Cell}
    (h : c.gate_type = .Witness) :
    projectCell lc la c = .error (.witnessCell la) := by
  unfold projectCell; rw [h]

theorem projectCell_eq_add {lc : List Nat} {la : Nat} {c : Cell} {l r : Nat}
    (h : c.gate_type = .Add l r) :
    projectCell lc la c =
      (do
        let m ← idx lc (la - 1)
        if l ≥ m ∨ r ≥ m then .error (.noEnoughCell (la - 1))
        else .ok ⟨.Add, (l, r)⟩) := by
  unfold projectCell; rw [h]

theorem projectCell_eq_mul {lc : List Nat} {la : Nat} {c : Cell} {l r : Nat}
    (h : c.gate_type = .Mul l r) :
    projectCell lc la c =
      (do
        let m ← idx lc (la - 1)
        if l ≥ m ∨ r ≥ m then .error (.noEnoughCell (la - 1))
        else .ok ⟨.Mul, (l, r)⟩) := by
  unfold projectCell; rw [h]

theorem cellGate_eq_add {c : Cell} {l r : Nat} (h : c.gate_type = .Add l r) :
    cellGate c = ⟨.Add, (l, r)⟩ := by
  unfold cellGate; rw [h]

theorem cellGate_eq_mul {c : Cell} {l r : Nat} (h : c.gate_type = .Mul l r) :
    cellGate c = ⟨.Mul, (l, r)⟩ := by
  unfold cellGate; rw [h]

theorem goodCell_eq_witness {m : Nat} {c : Cell} (h : c.gate_type = .Witness) :
    goodCell m c = false := by
  unfold goodCell; rw [h]

theorem goodCell_eq_add {m : Nat} {c : Cell} {l r : Nat} (h : c.gate_type = .Add l r) :
    goodCell m c = (decide (l < m) && decide (r < m)) := by
  unfold goodCell; rw [h]

theorem goodCell_eq_mul {m : Nat} {c : Cell} {l r : Nat} (h : c.gate_type = .Mul l r) :
    goodCell m c = (decide (l < m) && decide (r < m)) := by
  unfold goodCell; rw [h]

theorem cellGate_inputs_lt {m : Nat} {c : Cell} (h : goodCell m c = true) :
    (cellGate c).inputs.1 < m ∧ (cellGate c).inputs.2 < m := by
  cases hgt : c.gate_type with
  | Witness => rw [goodCell_eq_witness hgt] at h; exact absurd h (by simp)
  | Add l r =>
      rw [goodCell_eq_add hgt] at h
      rw [cellGate_eq_add hgt]
      simpa using h
  | Mul l r =>
      rw [goodCell_eq_mul hgt] at h
      rw [cellGate_eq_mul hgt]
      simpa using h

theorem projectCell_good {lc : List Nat} {la : Nat} {c : Cell}
    (hla : la - 1 < lc.length) (hg : goodCell (lc.getD (la - 1) 0) c = true) :
    projectCell lc la c = .ok (cellGate c) := by
  rw [getD_eq_getElem hla] at hg
  cases hgt : c.gate_type with
  | Witness => rw [goodCell_eq_witness hgt] at hg; exact absurd hg (by simp)
  | Add l r =>
      rw [goodCell_eq_add hgt] at hg
      simp only [Bool.and_eq_true, decide_eq_true_eq] at hg
      rw [projectCell_eq_add hgt, cellGate_eq_add hgt, idx_eq_ok hla]
      simp only [exceptBind_ok]
      rw [if_neg (by push_neg; exact ⟨hg.1, hg.2⟩)]
  | Mul l r =>
      rw [goodCell_eq_mul hgt] at hg
      simp only [Bool.and_eq_true, decide_eq_true_eq] at hg
      rw [projectCell_eq_mul hgt, cellGate_eq_mul hgt, idx_eq_ok hla]
      simp only [exceptBind_ok]
      rw [if_neg (by push_neg; exact ⟨hg.1, hg.2⟩)]

theorem projectCell_oor {lc : List Nat} {la : Nat} {c : Cell} {l r : Nat}
    (hla : la - 1 < lc.length)
    (h : c.gate_type = .Add l r ∨ c.gate_type = .Mul l r)
    (hb : lc.getD (la - 1) 0 ≤ l ∨ lc.getD (la - 1) 0 ≤ r) :
    projectCell lc la c = .error (.noEnoughCell (la - 1)) := by
  rw [getD_eq_getElem hla] at hb
  rcases h with h | h
  · rw [projectCell_eq_add h, idx_eq_ok hla]
    simp only [exceptBind_ok]
    rw [if_pos hb]
  · rw [projectCell_eq_mul h, idx_eq_ok hla]
    simp only [exceptBind_ok]
    rw [if_pos hb]

theorem projectCell_ok_inv {lc : List Nat} {la : Nat} {c : Cell} {g : Gate}
    (h : projectCell lc la c = .ok g) :
    la - 1 < lc.length ∧ goodCell (lc.getD (la - 1) 0) c = true ∧ g = cellGate c := by
  cases hgt : c.gate_type with
  | Witness =>
      rw [projectCell_eq_witness hgt] at h
      exact absurd h (by simp)
  | Add l r =>
      rw [projectCell_eq_add hgt] at h
      cases hidx : idx lc (la - 1) with
      | error e => rw [hidx] at h; exact absurd h (by simp)
      | ok m =>
          rw [hidx] at h
          simp only [exceptBind_ok] at h
          obtain ⟨hlt, hget⟩ := idx_ok_inv hidx
          have hm : lc.getD (la - 1) 0 = m := by
            rw [getD_eq_getElem hlt]
            rw [List.getElem?_eq_getElem hlt] at hget
            injection hget
          split at h
          · exact absurd h (by simp)
          · next hcond =>
              injection h with h'
              push_neg at hcond
              refine ⟨hlt, ?_, by rw [← h', cellGate_eq_add hgt]⟩
              rw [goodCell_eq_add hgt]
              simp only [Bool.and_eq_true, decide_eq_true_eq, hm]
              omega
  | Mul l r =>
      rw [projectCell_eq_mul hgt] at h
      cases hidx : idx lc (la - 1) with
      | error e => rw [hidx] at h; exact absurd h (by simp)
      | ok m =>
          rw [hidx] at h
          simp only [exceptBind_ok] at h
          obtain ⟨hlt, hget⟩ := idx_ok_inv hidx
          have hm : lc.getD (la - 1) 0 = m := by
            rw [getD_eq_getElem hlt]
            rw [List.getElem?_eq_getElem hlt] at hget
            injection hget
          split at h
          · exact absurd h (by simp)
          · next hcond =>
              injection h with h'
              push_neg at hcond
              refine ⟨hlt, ?_, by rw [← h', cellGate_eq_mul hgt]⟩
              rw [goodCell_eq_mul hgt]
              simp only [Bool.and_eq_true, decide_eq_true_eq, hm]
              omega

theorem slice_succ {α : Type} (l : List α) (j n : Nat) (h : j < l.length) :
    (l.drop j).take (n + 1) = l[j] :: (l.drop (j + 1)).take n := by
  rw [List.drop_eq_getElem_cons h, List.take_succ_cons]

/-- If the inner projection loop accepts, it emits one gate per iteration
and every emitted gate's operands are below `layer_count[la - 1]`. -/
theorem projectLayer_ok_spec {cells : List Cell} {lc : List Nat} {la : Nat} :
    ∀ {j n : Nat} {gs : List Gate}, projectLayer cells lc la j n = .ok gs →
    gs.length = n ∧ ∀ g ∈ gs,
      g.inputs.1 < lc.getD (la - 1) 0 ∧ g.inputs.2 < lc.getD (la - 1) 0 := by
  intro j n
  induction n generalizing j with
  | zero =>
      intro gs h
      rw [projectLayer] at h
      injection h with h'
      exact ⟨by rw [← h']; rfl, by rw [← h']; intro g hg; cases hg⟩
  | succ n ihn =>
      intro gs h
      rw [projectLayer] at h
      cases hidx : idx cells j with
      | error e => rw [hidx] at h; exact absurd h (by simp)
      | ok c =>
          rw [hidx] at h
          simp only [exceptBind_ok] at h
          cases hpc : projectCell lc la c with
          | error e => rw [hpc] at h; exact absurd h (by simp)
          | ok g0 =>
              rw [hpc] at h
              simp only [exceptBind_ok] at h
              cases hrest : projectLayer cells lc la (j + 1) n with
              | error e => rw [hrest] at h; exact absurd h (by simp)
              | ok rest =>
                  rw [hrest] at h
                  simp only [exceptBind_ok] at h
                  injection h with h'
                  obtain ⟨hlen, hops⟩ := ihn hrest
                  obtain ⟨_, hgood, hg0⟩ := projectCell_ok_inv hpc
                  refine ⟨by rw [← h']; simp [hlen], ?_⟩
                  rw [← h']
                  intro g hg
                  rcases List.mem_cons.mp hg with rfl | hg'
                  · rw [hg0]; exact cellGate_inputs_lt hgood
                  · exact hops g hg'

/-- If every cell of the slice is good, the inner projection loop emits
exactly the corresponding gates, in order. -/
theorem projectLayer_good {cells : List Cell} {lc : List Nat} {la : Nat}
    (hla : la - 1 < lc.length) :
    ∀ {j n : Nat}, j + n ≤ cells.length →
    (∀ c ∈ (cells.drop j).take n, goodCell (lc.getD (la - 1) 0) c = true) →
    projectLayer cells lc la j n = .ok (((cells.drop j).take n).map cellGate) := by
  intro j n
  induction n generalizing j with
  | zero => intro _ _; rw [projectLayer]; rfl
  | succ n ihn =>
      intro hn hgood
      have hj : j < cells.length := by omega
      rw [slice_succ cells j n hj] at hgood ⊢
      rw [projectLayer, idx_eq_ok hj]
      simp only [exceptBind_ok]
      rw [projectCell_good hla (hgood _ (List.mem_cons_self _ _))]
      simp only [exceptBind_ok]
      rw [ihn (by omega) (fun c hc => hgood c (List.mem_cons_of_mem _ hc))]
      simp only [exceptBind_ok, List.map_cons]
      rfl

/-- The first non-good cell of the slice determines the error of the inner
projection loop: a witness cell panics "exist witness cell in layer_la", a
gate cell with an operand `≥ layer_count[la - 1]` panics "no enough cell in
layer_(la - 1)". -/
theorem projectLayer_first_bad {cells : List Cell} {lc : List Nat} {la : Nat}
    (hla : la - 1 < lc.length) :
    ∀ (pre : List Cell) {j n : Nat} (c : Cell) (post : List Cell),
    j + n ≤ cells.length →
    (cells.drop j).take n = pre ++ c :: post →
    (∀ c' ∈ pre, goodCell (lc.getD (la - 1) 0) c' = true) →
    (c.gate_type = .Witness → projectLayer cells lc la j n = .error (.witnessCell la)) ∧
    (∀ l r, (c.gate_type = .Add l r ∨ c.gate_type = .Mul l r) →
      (lc.getD (la - 1) 0 ≤ l ∨ lc.getD (la - 1) 0 ≤ r) →
      projectLayer cells lc la j n = .error (.noEnoughCell (la - 1))) := by
  intro pre
  induction pre with
  | nil =>
      intro j n c post hn hslice _
      have hn0 : n ≠ 0 := by
        intro h0; subst h0; simp at hslice
      obtain ⟨n', rfl⟩ : ∃ n', n = n' + 1 := ⟨n - 1, by omega⟩
      have hj : j < cells.length := by omega
      rw [slice_succ cells j n' hj] at hslice
      simp only [List.nil_append] at hslice
      injection hslice with hcj hpost
      constructor
      · intro hw
        rw [projectLayer, idx_eq_ok hj]
        simp only [exceptBind_ok]
        rw [hcj, projectCell_eq_witness hw]
        rfl
      · intro l r hlr hb
        rw [projectLayer, idx_eq_ok hj]
        simp only [exceptBind_ok]
        rw [hcj, projectCell_oor hla hlr hb]
        rfl
  | cons p pre' ih =>
      intro j n c post hn hslice hgood
      have hn0 : n ≠ 0 := by
        intro h0; subst h0; simp at hslice
      obtain ⟨n', rfl⟩ : ∃ n', n = n' + 1 := ⟨n - 1, by omega⟩
      have hj : j < cells.length := by omega
      rw [slice_succ cells j n' hj] at hslice
      rw [List.cons_append] at hslice
      injection hslice with hcj hrest
      have hpgood : goodCell (lc.getD (la - 1) 0) p = true :=
        hgood p (List.mem_cons_self _ _)
      have ihres := ih c post (by omega) hrest
        (fun c' hc' => hgood c' (List.mem_cons_of_mem _ hc'))
      constructor
      · intro hw
        rw [projectLayer, idx_eq_ok hj]
        simp only [exceptBind_ok]
        rw [hcj, projectCell_good hla hpgood]
        simp only [exceptBind_ok]
        rw [ihres.1 hw]
        rfl
      · intro l r hlr hb
        rw [projectLayer, idx_eq_ok hj]
        simp only [exceptBind_ok]
        rw [hcj, projectCell_good hla hpgood]
        simp only [exceptBind_ok]
        rw [ihres.2 l r hlr hb]
        rfl

theorem idx_error_inv {α : Type} {l : List α} {i : Nat} {e : BuildError}
    (h : idx l i = .error e) : e = .indexOOB := by
  unfold idx at h
  split at h
  · exact absurd h (by simp)
  · injection h with h'; exact h'.symm

theorem checkedSub_error_inv {a b : Nat} {e : BuildError}
    (h : checkedSub a b = .error e) : e = .subOverflow := by
  unfold checkedSub at h
  split at h
  · exact absurd h (by simp)
  · injection h with h'; exact h'.symm

/-- With `layer_count[la - 1]` in bounds, a cell projection can only fail
with the witness-cell or the operand-out-of-range panic. -/
theorem projectCell_error_shape {lc : List Nat} {la : Nat} {c : Cell} {e : BuildError}
    (hla : la - 1 < lc.length) (h : projectCell lc la c = .error e) :
    e = .witnessCell la ∨ e = .noEnoughCell (la - 1) := by
  cases hgt : c.gate_type with
  | Witness =>
      rw [projectCell_eq_witness hgt] at h
      injection h with h'; exact .inl h'.symm
  | Add l r =>
      rw [projectCell_eq_add hgt, idx_eq_ok hla] at h
      simp only [exceptBind_ok] at h
      split at h
      · injection h with h'; exact .inr h'.symm
      · exact absurd h (by simp)
  | Mul l r =>
      rw [projectCell_eq_mul hgt, idx_eq_ok hla] at h
      simp only [exceptBind_ok] at h
      split at h
      · injection h with h'; exact .inr h'.symm
      · exact absurd h (by simp)

/-- Any error of the inner projection loop is a witness-cell panic, an
operand-range panic, or an out-of-bounds indexing panic. -/
theorem projectLayer_error_shape {cells : List Cell} {lc : List Nat} {la : Nat} :
    ∀ {j n : Nat} {e : BuildError}, projectLayer cells lc la j n = .error e →
    e = .witnessCell la ∨ e = .noEnoughCell (la - 1) ∨ e = .indexOOB := by
  intro j n
  induction n generalizing j with
  | zero =>
      intro e h
      rw [projectLayer] at h
      exact absurd h (by simp [pure, Except.pure])
  | succ n ihn =>
      intro e h
      rw [projectLayer] at h
      cases hidx : idx cells j with
      | error e' =>
          rw [hidx] at h
          simp only [exceptBind_error] at h
          injection h with h'
          exact .inr (.inr (by rw [← h', idx_error_inv hidx]))
      | ok c =>
          rw [hidx] at h
          simp only [exceptBind_ok] at h
          cases hpc : projectCell lc la c with
          | error e' =>
              rw [hpc] at h
              simp only [exceptBind_error] at h
              injection h with h'
              subst h'
              -- either the operand-bound lookup was in range, or the error is OOB
              by_cases hla : la - 1 < lc.length
              · rcases projectCell_error_shape hla hpc with h1 | h1
                · exact .inl h1
                · exact .inr (.inl h1)
              · cases hgt : c.gate_type with
                | Witness =>
                    rw [projectCell_eq_witness hgt] at hpc
                    injection hpc with h''
                    exact .inl h''.symm
                | Add l r =>
                    rw [projectCell_eq_add hgt] at hpc
                    rw [show idx lc (la - 1) = .error .indexOOB from by
                      unfold idx; rw [dif_neg hla]] at hpc
                    simp only [exceptBind_error] at hpc
                    injection hpc with h''
                    exact .inr (.inr h''.symm)
                | Mul l r =>
                    rw [projectCell_eq_mul hgt] at hpc
                    rw [show idx lc (la - 1) = .error .indexOOB from by
                      unfold idx; rw [dif_neg hla]] at hpc
                    simp only [exceptBind_error] at hpc
                    injection hpc with h''
                    exact .inr (.inr h''.symm)
          | ok g =>
              rw [hpc] at h
              simp only [exceptBind_ok] at h
              cases hrest : projectLayer cells lc la (j + 1) n with
              | error e' =>
                  rw [hrest] at h
                  simp only [exceptBind_error] at h
                  injection h with h'
                  rw [← h']
                  exact ihn hrest
              | ok rest =>
                  rw [hrest] at h
                  exact absurd h (by simp [pure, Except.pure])

/-- Any error of the outer projection loop is a witness-cell panic, an
operand-range panic, an out-of-bounds indexing panic or a subtraction
overflow — never the walk's errors and never the input/output mismatch. -/
theorem projectLoop_error_shape {cells : List Cell} {lc : List Nat} :
    ∀ {la e : Nat} {er : BuildError}, projectLoop cells lc la e = .error er →
    er = .indexOOB ∨ er = .subOverflow ∨
    (∃ w, er = .witnessCell w) ∨ (∃ w, er = .noEnoughCell w) := by
  intro la
  induction la with
  | zero =>
      intro e er h
      rw [projectLoop] at h
      exact absurd h (by simp [pure, Except.pure])
  | succ la ihla =>
      intro e er h
      rw [projectLoop] at h
      cases hcnt : idx lc (la + 1) with
      | error e' =>
          rw [hcnt] at h
          simp only [exceptBind_error] at h
          injection h with h'
          exact .inl (by rw [← h', idx_error_inv hcnt])
      | ok cnt =>
          rw [hcnt] at h
          simp only [exceptBind_ok] at h
          cases hsub : checkedSub e cnt with
          | error e' =>
              rw [hsub] at h
              simp only [exceptBind_error] at h
              injection h with h'
              exact .inr (.inl (by rw [← h', checkedSub_error_inv hsub]))
          | ok start =>
              rw [hsub] at h
              simp only [exceptBind_ok] at h
              cases hpl : projectLayer cells lc (la + 1) start (e - start) with
              | error e' =>
                  rw [hpl] at h
                  simp only [exceptBind_error] at h
                  injection h with h'
                  subst h'
                  rcases projectLayer_error_shape hpl with h1 | h1 | h1
                  · exact .inr (.inr (.inl ⟨la + 1, h1⟩))
                  · exact .inr (.inr (.inr ⟨la + 1 - 1, h1⟩))
                  · exact .inl h1
              | ok g =>
                  rw [hpl] at h
                  simp only [exceptBind_ok] at h
                  cases hrest : projectLoop cells lc la start with
                  | error e' =>
                      rw [hrest] at h
                      simp only [exceptBind_error] at h
                      injection h with h'
                      rw [← h']
                      exact ihla hrest
                  | ok rest =>
                      rw [hrest] at h
                      exact absurd h (by simp [pure, Except.pure])

/-- If the outer projection loop accepts, the resulting layer list has one
layer per `la` value, the first layer has `layer_count[la]` gates, and the
whole list satisfies the operand-validity chain down to
`num_inputs = layer_count[0]`. -/
theorem projectLoop_chain {cells : List Cell} {lc : List Nat} :
    ∀ {la e : Nat} {ls : List CircuitLayer}, projectLoop cells lc la e = .ok ls →
    ls.length = la ∧
    (∀ hd, ls.head? = some hd → hd.gates.length = lc.getD la 0) ∧
    chainOk ls (lc.getD 0 0) = true := by
  intro la
  induction la with
  | zero =>
      intro e ls h
      rw [projectLoop] at h
      injection h with h'
      subst h'
      refine ⟨rfl, ?_, rfl⟩
      intro hd h'
      simp at h'
  | succ la ihla =>
      intro e ls h
      rw [projectLoop] at h
      cases hcnt : idx lc (la + 1) with
      | error e' => rw [hcnt] at h; exact absurd h (by simp)
      | ok cnt =>
          rw [hcnt] at h
          simp only [exceptBind_ok] at h
          obtain ⟨hlt, hget⟩ := idx_ok_inv hcnt
          have hcntD : lc.getD (la + 1) 0 = cnt := by
            rw [getD_eq_getElem hlt]
            rw [List.getElem?_eq_getElem hlt] at hget
            injection hget
          cases hsub : checkedSub e cnt with
          | error e' => rw [hsub] at h; exact absurd h (by simp)
          | ok start =>
              rw [hsub] at h
              simp only [exceptBind_ok] at h
              obtain ⟨hle, hstart⟩ := checkedSub_ok_inv hsub
              cases hpl : projectLayer cells lc (la + 1) start (e - start) with
              | error e' => rw [hpl] at h; exact absurd h (by simp)
              | ok g =>
                  rw [hpl] at h
                  simp only [exceptBind_ok] at h
                  cases hrest : projectLoop cells lc la start with
                  | error e' => rw [hrest] at h; exact absurd h (by simp)
                  | ok rest =>
                      rw [hrest] at h
                      injection h with h'
                      subst h'
                      obtain ⟨hg_len, hg_ops⟩ := projectLayer_ok_spec hpl
                      have hg_len' : g.length = cnt := by omega
                      obtain ⟨hr_len, hr_head, hr_chain⟩ := ihla hrest
                      have hops : ∀ gg ∈ g,
                          gg.inputs.1 < lc.getD la 0 ∧ gg.inputs.2 < lc.getD la 0 := by
                        intro gg hgg
                        have := hg_ops gg hgg
                        simpa using this
                      refine ⟨by simp [hr_len], ?_, ?_⟩
                      · intro hd hhd
                        simp only [List.head?_cons, Option.some.injEq] at hhd
                        rw [← hhd, hcntD]
                        exact hg_len'
                      · cases rest with
                        | nil =>
                            have hla0 : la = 0 := by simp at hr_len; omega
                            subst hla0
                            rw [chainOk]
                            simp only [List.all_eq_true, Bool.and_eq_true,
                              decide_eq_true_eq]
                            exact fun gg hgg => hops gg hgg
                        | cons r rest' =>
                            rw [chainOk]
                            simp only [Bool.and_eq_true]
                            refine ⟨?_, hr_chain⟩
                            have hr_gates : r.gates.length = lc.getD la 0 :=
                              hr_head r (by simp)
                            simp only [List.all_eq_true, Bool.and_eq_true,
                              decide_eq_true_eq, hr_gates]
                            exact fun gg hgg => hops gg hgg

theorem take_sum_succ {l : List Nat} {i : Nat} (h : i < l.length) :
    (l.take (i + 1)).sum = (l.take i).sum + l.getD i 0 := by
  rw [List.sum_take_succ l i h, getD_eq_getElem h]

/-- With the operand-bound index in range and the slice inside the cell
vector, the inner projection loop either accepts or fails with a declared
structural panic. -/
theorem projectLayer_safe {cells : List Cell} {lc : List Nat} {la : Nat}
    (hla : la - 1 < lc.length) :
    ∀ {j n : Nat}, j + n ≤ cells.length →
    (∃ gs, projectLayer cells lc la j n = .ok gs) ∨
    (∃ er, projectLayer cells lc la j n = .error er ∧ er.structural = true) := by
  intro j n
  induction n generalizing j with
  | zero => intro _; exact .inl ⟨[], by rw [projectLayer]; rfl⟩
  | succ n ihn =>
      intro hn
      have hj : j < cells.length := by omega
      rw [projectLayer, idx_eq_ok hj]
      simp only [exceptBind_ok]
      cases hpc : projectCell lc la cells[j] with
      | error e =>
          simp only [exceptBind_error]
          refine .inr ⟨e, rfl, ?_⟩
          rcases projectCell_error_shape hla hpc with h1 | h1 <;> subst h1 <;> rfl
      | ok g =>
          simp only [exceptBind_ok]
          rcases ihn (j := j + 1) (by omega) with ⟨gs, hgs⟩ | ⟨er, her, hstr⟩
          · rw [hgs]
            exact .inl ⟨g :: gs, rfl⟩
          · rw [her]
            exact .inr ⟨er, rfl, hstr⟩

/-- Under the layer-count invariants established by a successful walk, the
outer projection loop never raises an indexing or subtraction panic: it
accepts or fails with a declared structural panic. -/
theorem projectLoop_safe {cells : List Cell} {lc : List Nat} :
    ∀ {la e : Nat}, la < lc.length → (lc.take (la + 1)).sum ≤ e →
    e ≤ cells.length →
    (∃ ls, projectLoop cells lc la e = .ok ls) ∨
    (∃ er, projectLoop cells lc la e = .error er ∧ er.structural = true) := by
  intro la
  induction la with
  | zero => intro e _ _ _; exact .inl ⟨[], by rw [projectLoop]; rfl⟩
  | succ la ihla =>
      intro e hlt hsum hlen
      have hcnt_le : lc.getD (la + 1) 0 ≤ e := by
        have h1 := take_sum_succ hlt
        omega
      rw [projectLoop, idx_eq_ok hlt]
      simp only [exceptBind_ok]
      rw [checkedSub_eq_ok (by rwa [getD_eq_getElem hlt] at hcnt_le)]
      simp only [exceptBind_ok]
      have hla1 : la + 1 - 1 < lc.length := by omega
      have hslice : (e - lc[la + 1]) + (e - (e - lc[la + 1])) ≤ cells.length := by
        omega
      rcases projectLayer_safe hla1 hslice with ⟨gs, hgs⟩ | ⟨er, her, hstr⟩
      · rw [hgs]
        simp only [exceptBind_ok]
        have hrec : (lc.take (la + 1)).sum ≤ e - lc[la + 1] := by
          have h1 := take_sum_succ hlt
          have h2 : lc.getD (la + 1) 0 = lc[la + 1] := getD_eq_getElem hlt 0
          omega
        rcases ihla (by omega) hrec (by omega) with ⟨ls, hls⟩ | ⟨er, her, hstr⟩
        · rw [hls]
          exact .inl ⟨⟨gs⟩ :: ls, rfl⟩
        · rw [her]
          exact .inr ⟨er, rfl, hstr⟩
      · rw [her]
        exact .inr ⟨er, rfl, hstr⟩

/-! ### Unfolding `build_circuit` by the walk's outcome -/

theorem build_of_walk_error {b : CircuitBuilder} {e : BuildError}
    (h : walkAux (sortCells b.cells) 0 0 [] = .error e) :
    build_circuit b = .error e := by
  simp only [build_circuit]
  rw [h]
  rfl

theorem walk_ok_nonempty {cs : List Cell} {lc : List Nat}
    (h : walkAux cs 0 0 [] = .ok lc) : 0 < lc.length := by
  obtain ⟨tl, h1, h2, -⟩ := walk_counts h
  simp only [List.nil_append] at h1
  rw [h1]
  exact h2

theorem build_of_walk_ok {b : CircuitBuilder} {lc : List Nat}
    (hwalk : walkAux (sortCells b.cells) 0 0 [] = .ok lc) :
    build_circuit b =
      if lc.getD 0 0 ≠ b.n_input ∨ lc.getD (lc.length - 1) 0 ≠ b.n_output then
        .error .wrongInOut
      else
        match projectLoop (sortCells b.cells) lc (b.n_layer - 1)
            (sortCells b.cells).length with
        | .error e => .error e
        | .ok layers => .ok ⟨layers, lc.getD 0 0⟩ := by
  have hlen : 0 < lc.length := walk_ok_nonempty hwalk
  have hlen' : lc.length - 1 < lc.length := by omega
  simp only [build_circuit]
  rw [hwalk]
  simp only [exceptBind_ok]
  rw [idx_eq_ok hlen]
  simp only [exceptBind_ok]
  rw [idx_eq_ok hlen']
  simp only [exceptBind_ok]
  rw [getD_eq_getElem hlen 0, getD_eq_getElem hlen' 0]
  by_cases hcond : lc[0] ≠ b.n_input ∨ lc[lc.length - 1] ≠ b.n_output
  · rw [if_pos hcond, if_pos hcond]
  · rw [if_neg hcond, if_neg hcond]
    cases hP : projectLoop (sortCells b.cells) lc (b.n_layer - 1)
        (sortCells b.cells).length with
    | error e => rfl
    | ok layers => rfl

/-- C1: for every builder on which `build_circuit` returns a circuit, every
gate operand position in layer `i` of the returned circuit is a valid index
into layer `i + 1` (strictly less than that layer's gate count), and for
the deepest layer every operand position is strictly below the circuit's
`num_inputs`. -/
theorem c1_circuit_invariant (b : CircuitBuilder) (c : Circuit)
    (h : build_circuit b = .ok c) : c.wellFormed = true := by
  cases hwalk : walkAux (sortCells b.cells) 0 0 [] with
  | error e =>
      rw [build_of_walk_error hwalk] at h
      exact absurd h (by simp)
  | ok lc =>
      rw [build_of_walk_ok hwalk] at h
      by_cases hcond : lc.getD 0 0 ≠ b.n_input ∨ lc.getD (lc.length - 1) 0 ≠ b.n_output
      · rw [if_pos hcond] at h; exact absurd h (by simp)
      · rw [if_neg hcond] at h
        cases hP : projectLoop (sortCells b.cells) lc (b.n_layer - 1)
            (sortCells b.cells).length with
        | error e => rw [hP] at h; exact absurd h (by simp)
        | ok layers =>
            rw [hP] at h
            injection h with h'
            obtain ⟨-, -, hchain⟩ := projectLoop_chain hP
            rw [← h']
            unfold Circuit.wellFormed
            exact hchain

/-- C1 witness: the circuit returned on the concrete test scenario
satisfies the operand-validity invariant. -/
theorem c1_witness_concrete : Circuit.wellFormed testCircuit = true :=
  c1_circuit_invariant testBuilder testCircuit (by decide)

/-- C3: during `build_circuit`'s projection pass over one layer — cells at
positions `j, …, j + n - 1` of the sorted vector, current layer `la`,
operand bound `layer_count[la - 1]` — each cell is handled exactly as
follows: if every cell of the slice is an Add/Mul gate with operands below
the bound, a gate of the same kind with both operand indices unchanged is
emitted for each, in order; if the first offending cell is a Witness, the
pass fails with the "exist witness cell in layer_la" error; if it is a gate
with an operand `≥` the adjacent lower layer's cell count, the pass fails
with the "no enough cell in layer_(la-1)" error. -/
theorem c3_projection_per_cell (cells : List Cell) (lc : List Nat) (la j n : Nat)
    (hn : j + n ≤ cells.length) (hla : la - 1 < lc.length) :
    ((∀ c ∈ (cells.drop j).take n, goodCell (lc.getD (la - 1) 0) c = true) →
      projectLayer cells lc la j n = .ok (((cells.drop j).take n).map cellGate)) ∧
    (∀ pre c post, (cells.drop j).take n = pre ++ c :: post →
      (∀ c' ∈ pre, goodCell (lc.getD (la - 1) 0) c' = true) →
      (c.gate_type = .Witness →
        projectLayer cells lc la j n = .error (.witnessCell la)) ∧
      (∀ l r, (c.gate_type = .Add l r ∨ c.gate_type = .Mul l r) →
        (lc.getD (la - 1) 0 ≤ l ∨ lc.getD (la - 1) 0 ≤ r) →
        projectLayer cells lc la j n = .error (.noEnoughCell (la - 1)))) :=
  ⟨fun hgood => projectLayer_good hla hn hgood,
   fun _pre c post hslice hpre => projectLayer_first_bad hla _pre c post hn hslice hpre⟩

/-- C3 witness: the projection-pass description instantiated on the
concrete two-cell collection, layer 1, slice position 1 of length 1. -/
theorem c3_witness_concrete :
    ((∀ c ∈ (c3cells.drop 1).take 1, goodCell ([1, 1].getD 0 0) c = true) →
      projectLayer c3cells [1, 1] 1 1 1 = .ok (((c3cells.drop 1).take 1).map cellGate)) ∧
    (∀ pre c post, (c3cells.drop 1).take 1 = pre ++ c :: post →
      (∀ c' ∈ pre, goodCell ([1, 1].getD 0 0) c' = true) →
      (c.gate_type = .Witness →
        projectLayer c3cells [1, 1] 1 1 1 = .error (.witnessCell 1)) ∧
      (∀ l r, (c.gate_type = .Add l r ∨ c.gate_type = .Mul l r) →
        (([1, 1] : List Nat).getD 0 0 ≤ l ∨ ([1, 1] : List Nat).getD 0 0 ≤ r) →
        projectLayer c3cells [1, 1] 1 1 1 = .error (.noEnoughCell 0))) :=
  c3_projection_per_cell c3cells [1, 1] 1 1 1 (by decide) (by decide)

/-- A successful walk certifies that every layer of the walked list is
consecutively indexed. -/
theorem consec_of_walk_ok {cs : List Cell} {lc : List Nat}
    (h : walkAux cs 0 0 [] = .ok lc) (ℓ : Nat) : ConsecLayer cs ℓ := by
  obtain ⟨-, h2, h3⟩ := walk_ok_filters h
  unfold ConsecLayer
  rcases Nat.eq_zero_or_pos ℓ with rfl | hpos
  · rw [h2, ← List.range_eq_range']
  · rw [h3 ℓ hpos]

/-- C6 amended: the walk verifies that within each layer the cell indices
are exactly `0, 1, …, count - 1`: a returned circuit certifies this for
every layer, and on any violating collection `build_circuit` fails — with
the "non-consecutive index" structural error, except that an empty layer
lying before the violation in walk order is reported first as an
"empty layer" error. -/
theorem c6_amended_nonconsecutive (b : CircuitBuilder) :
    (∀ c, build_circuit b = .ok c → ∀ ℓ, ConsecLayer b.cells ℓ) ∧
    ((∃ ℓ ∈ b.cells.map Cell.layer_id, ¬ ConsecLayer b.cells ℓ) →
      build_circuit b = .error .nonConsecutive ∨
      ∃ g, build_circuit b = .error (.emptyLayer g)) := by
  constructor
  · intro c hok ℓ
    cases hwalk : walkAux (sortCells b.cells) 0 0 [] with
    | error e =>
        rw [build_of_walk_error hwalk] at hok
        exact absurd hok (by simp)
    | ok lc =>
        exact (consec_of_walk_ok hwalk ℓ).of_perm (sortCells_perm b.cells)
  · rintro ⟨ℓ, -, hviol⟩
    cases hwalk : walkAux (sortCells b.cells) 0 0 [] with
    | ok lc =>
        exact absurd ((consec_of_walk_ok hwalk ℓ).of_perm (sortCells_perm b.cells))
          hviol
    | error e =>
        have hbuild := build_of_walk_error hwalk
        rcases walk_error_shape hwalk with rfl | ⟨g, rfl⟩
        · exact .inl hbuild
        · exact .inr ⟨g, hbuild⟩

/-- C6 amended, witness: on the concrete masked collection the violation at
layer 2 exists and the call fails with one of the two walk errors. -/
theorem c6_amended_witness :
    (∀ c, build_circuit maskedBuilder = .ok c →
      ∀ ℓ, ConsecLayer maskedBuilder.cells ℓ) ∧
    ((∃ ℓ ∈ maskedBuilder.cells.map Cell.layer_id,
        ¬ ConsecLayer maskedBuilder.cells ℓ) →
      build_circuit maskedBuilder = .error .nonConsecutive ∨
      ∃ g, build_circuit maskedBuilder = .error (.emptyLayer g)) :=
  c6_amended_nonconsecutive maskedBuilder

theorem take_sum_le (l : List Nat) (k : Nat) : (l.take k).sum ≤ l.sum := by
  conv_rhs => rw [← List.take_append_drop k l]
  rw [List.sum_append]
  omega

/-- C10: under the precondition that the validation walk succeeds and
produces at least `total_layer_count` layer counts, `build_circuit` never
raises an out-of-bounds indexing panic or an arithmetic-underflow panic:
it terminates either by returning a circuit or with one of the declared
structural-error panics. -/
theorem c10_projection_safe (b : CircuitBuilder) (lc : List Nat)
    (hwalk : walkAux (sortCells b.cells) 0 0 [] = .ok lc)
    (hlen : b.n_layer ≤ lc.length) :
    build_circuit b ≠ .error .indexOOB ∧
    build_circuit b ≠ .error .subOverflow ∧
    ((∃ c, build_circuit b = .ok c) ∨
     (∃ e, build_circuit b = .error e ∧ e.structural = true)) := by
  have hb := build_of_walk_ok hwalk
  by_cases hcond : lc.getD 0 0 ≠ b.n_input ∨ lc.getD (lc.length - 1) 0 ≠ b.n_output
  · rw [if_pos hcond] at hb
    exact ⟨by rw [hb]; simp, by rw [hb]; simp, .inr ⟨.wrongInOut, hb, rfl⟩⟩
  · rw [if_neg hcond] at hb
    have hsum : lc.sum = (sortCells b.cells).length := by
      have := walk_sum hwalk
      simpa using this
    have hla : b.n_layer - 1 < lc.length := by
      have := walk_ok_nonempty hwalk
      omega
    have htake : (lc.take ((b.n_layer - 1) + 1)).sum ≤ (sortCells b.cells).length := by
      rw [← hsum]
      exact take_sum_le lc _
    rcases projectLoop_safe hla htake (Nat.le_refl _) with ⟨ls, hls⟩ | ⟨er, her, hstr⟩
    · rw [hls] at hb
      exact ⟨by rw [hb]; simp, by rw [hb]; simp,
        .inl ⟨⟨ls, lc.getD 0 0⟩, hb⟩⟩
    · rw [her] at hb
      have h1 : er ≠ .indexOOB := by
        intro he; rw [he] at hstr; exact absurd hstr (by decide)
      have h2 : er ≠ .subOverflow := by
        intro he; rw [he] at hstr; exact absurd hstr (by decide)
      refine ⟨?_, ?_, .inr ⟨er, hb, hstr⟩⟩
      · intro hcontra
        rw [hb] at hcontra
        simp at hcontra
        exact h1 hcontra
      · intro hcontra
        rw [hb] at hcontra
        simp at hcontra
        exact h2 hcontra

/-- C10 witness: on the concrete test builder the walk succeeds with three
layer counts and the projection pass is safe. -/
theorem c10_witness_concrete :
    build_circuit testBuilder ≠ .error .indexOOB ∧
    build_circuit testBuilder ≠ .error .subOverflow ∧
    ((∃ c, build_circuit testBuilder = .ok c) ∨
     (∃ e, build_circuit testBuilder = .error e ∧ e.structural = true)) :=
  c10_projection_safe testBuilder [4, 4, 2] (by decide) (by decide)

/-- C7 amended: assuming the validation walk succeeds, `build_circuit`
fails with the "input/output count mismatch" error exactly when the layer-0
cell count differs from the declared input count or the cell count of the
highest layer id present among the cells (the last count the walk produced)
differs from the declared output count.  The code checks the highest
populated layer, not layer `total_layer_count - 1`. -/
theorem c7_amended_check_top_present (b : CircuitBuilder) (lc : List Nat)
    (hwalk : walkAux (sortCells b.cells) 0 0 [] = .ok lc) :
    (build_circuit b = .error .wrongInOut ↔
      ¬((layerCells b.cells 0).length = b.n_input ∧
        (layerCells b.cells (lc.length - 1)).length = b.n_output)) ∧
    (∀ c ∈ b.cells, c.layer_id ≤ lc.length - 1) ∧
    layerCells b.cells (lc.length - 1) ≠ [] := by
  obtain ⟨tl, htl, htlpos, hget0, hgetk, hpos, habove⟩ := walk_counts hwalk
  simp only [List.nil_append] at htl
  subst htl
  have hlenperm : ∀ ℓ, (layerCells (sortCells b.cells) ℓ).length =
      (layerCells b.cells ℓ).length :=
    fun ℓ => (layerCells_perm (sortCells_perm b.cells) ℓ).length_eq
  have h0 : lc.getD 0 0 = (layerCells b.cells 0).length := by
    rw [hget0, hlenperm 0]
    omega
  have htop : lc.getD (lc.length - 1) 0 =
      (layerCells b.cells (lc.length - 1)).length := by
    rcases Nat.eq_zero_or_pos (lc.length - 1) with hz | hp
    · rw [hz]; exact h0
    · rw [hgetk (lc.length - 1) hp (by omega)]
      simp only [Nat.zero_add]
      exact hlenperm _
  refine ⟨?_, ?_, ?_⟩
  · rw [build_of_walk_ok hwalk]
    by_cases hcond : lc.getD 0 0 ≠ b.n_input ∨ lc.getD (lc.length - 1) 0 ≠ b.n_output
    · rw [if_pos hcond]
      rw [h0, htop] at hcond
      constructor
      · intro _
        tauto
      · intro _
        rfl
    · rw [if_neg hcond]
      push_neg at hcond
      rw [h0, htop] at hcond
      constructor
      · intro hcontra
        exfalso
        cases hP : projectLoop (sortCells b.cells) lc (b.n_layer - 1)
            (sortCells b.cells).length with
        | ok ls => rw [hP] at hcontra; exact absurd hcontra (by simp)
        | error e =>
            rw [hP] at hcontra
            simp only [] at hcontra
            injection hcontra with he
            subst he
            rcases projectLoop_error_shape hP with h | h | ⟨w, h⟩ | ⟨w, h⟩ <;>
              exact absurd h (by simp)
      · intro hcontra
        exact absurd ⟨hcond.1, hcond.2⟩ hcontra
  · intro c hc
    by_contra hgt
    push_neg at hgt
    have hcs : c ∈ sortCells b.cells := (sortCells_perm b.cells).mem_iff.mpr hc
    have hmem : c ∈ layerCells (sortCells b.cells) c.layer_id :=
      mem_layerCells.mpr ⟨hcs, rfl⟩
    have hemp : layerCells (sortCells b.cells) c.layer_id = [] :=
      habove c.layer_id (by omega)
    rw [hemp] at hmem
    exact absurd hmem (List.not_mem_nil c)
  · have hcnt := hpos (lc.length - 1) (by omega)
    rw [htop] at hcnt
    intro hcontra
    rw [hcontra] at hcnt
    simp at hcnt

/-- C7 amended, witness: the builder with four populated layers, where the
walk produces counts `[1, 1, 1, 2]`. -/
theorem c7_amended_witness :
    (build_circuit extraLayerBuilder = .error .wrongInOut ↔
      ¬((layerCells extraLayerBuilder.cells 0).length = extraLayerBuilder.n_input ∧
        (layerCells extraLayerBuilder.cells (([1, 1, 1, 2] : List Nat).length - 1)).length =
          extraLayerBuilder.n_output)) ∧
    (∀ c ∈ extraLayerBuilder.cells,
      c.layer_id ≤ ([1, 1, 1, 2] : List Nat).length - 1) ∧
    layerCells extraLayerBuilder.cells (([1, 1, 1, 2] : List Nat).length - 1) ≠ [] :=
  c7_amended_check_top_present extraLayerBuilder [1, 1, 1, 2] (by decide)

/-- C4 amended: an empty layer that lies strictly below some populated
layer is reported by the walk as the "empty layer" structural error,
provided every layer's indices are consecutive (otherwise the
non-consecutive-index error can fire first). -/
theorem c4_amended_gap_empty_layer (b : CircuitBuilder) (g : Nat)
    (hg : g < b.n_layer)
    (hempty : layerCells b.cells g = [])
    (hab : ∃ c ∈ b.cells, g < c.layer_id)
    (hconsec : ∀ ℓ ∈ b.cells.map Cell.layer_id, ConsecLayer b.cells ℓ) :
    ∃ g', build_circuit b = .error (.emptyLayer g') := by
  have hconsec' : ∀ ℓ, ConsecLayer b.cells ℓ := by
    intro ℓ
    by_cases hmem : ℓ ∈ b.cells.map Cell.layer_id
    · exact hconsec ℓ hmem
    · have hnil : layerCells b.cells ℓ = [] := by
        apply List.filter_eq_nil_iff.mpr
        intro c hc hbeq
        exact hmem (List.mem_map.mpr ⟨c, hc, by simpa using hbeq⟩)
      simp [ConsecLayer, hnil]
  have hsorted_consec : ∀ ℓ, ConsecLayer (sortCells b.cells) ℓ :=
    fun ℓ => (hconsec' ℓ).of_perm (sortCells_perm b.cells).symm
  cases hwalk : walkAux (sortCells b.cells) 0 0 [] with
  | ok lc =>
      exfalso
      obtain ⟨tl, htl, htlpos, hget0, hgetk, hpos, habove⟩ := walk_counts hwalk
      simp only [List.nil_append] at htl
      subst htl
      obtain ⟨c0, hc0m, hc0gt⟩ := hab
      have hc0s : c0 ∈ sortCells b.cells := (sortCells_perm b.cells).mem_iff.mpr hc0m
      have hc0in : c0 ∈ layerCells (sortCells b.cells) c0.layer_id :=
        mem_layerCells.mpr ⟨hc0s, rfl⟩
      have hc0lt : c0.layer_id < lc.length := by
        by_contra hge
        push_neg at hge
        rw [habove c0.layer_id (by omega)] at hc0in
        exact absurd hc0in (List.not_mem_nil c0)
      have hglt : g < lc.length := by omega
      have hcount := hpos g hglt
      have hsorted_empty : layerCells (sortCells b.cells) g = [] := by
        have hp := layerCells_perm (sortCells_perm b.cells) g
        rw [hempty] at hp
        exact hp.eq_nil
      rcases Nat.eq_zero_or_pos g with rfl | hgpos
      · rw [hget0, hsorted_empty] at hcount
        simp at hcount
      · rw [hgetk g hgpos hglt] at hcount
        simp only [Nat.zero_add] at hcount
        rw [hsorted_empty] at hcount
        simp at hcount
  | error e =>
      rcases walk_error_shape hwalk with rfl | ⟨g', rfl⟩
      · exfalso
        have hcur : ((layerCells (sortCells b.cells) 0).map Cell.index).Perm
            (List.range' 0 (layerCells (sortCells b.cells) 0).length) := by
          have h := hsorted_consec 0
          unfold ConsecLayer at h
          rwa [List.range_eq_range'] at h
        have hab' : ∀ ℓ, 0 < ℓ →
            ((layerCells (sortCells b.cells) ℓ).map Cell.index).Perm
              (List.range (layerCells (sortCells b.cells) ℓ).length) :=
          fun ℓ _ => hsorted_consec ℓ
        rcases @walk_sorted_consec (sortCells b.cells) 0 0 []
            (sortCells_sorted b.cells) (fun c _ => Nat.zero_le _) hcur hab' with
          ⟨lc, hlc⟩ | ⟨g', hg'⟩
        · rw [hwalk] at hlc
          exact absurd hlc (by simp)
        · rw [hwalk] at hg'
          injection hg' with h''
          exact absurd h'' (by simp)
      · exact ⟨g', build_of_walk_error hwalk⟩

/-- C4 amended, witness: the gap builder (layer 1 empty, layer 2 populated,
all layers consecutively indexed) fails with an empty-layer error. -/
theorem c4_amended_witness :
    ∃ g', build_circuit gapBuilder = .error (.emptyLayer g') :=
  c4_amended_gap_empty_layer gapBuilder 1 (by decide) (by decide)
    (by decide) (by decide)

/-- Two distinct positions carrying the same (layer id, index) pair make
that layer's indices fail to be a permutation of `0..count`. -/
theorem not_consec_of_dup {cs : List Cell} {i j ℓ v : Nat}
    (hi : i < cs.length) (hj : j < cs.length) (hij : i < j)
    (hli : cs[i].layer_id = ℓ) (hvi : cs[i].index = v)
    (hlj : cs[j].layer_id = ℓ) (hvj : cs[j].index = v) :
    ¬ ConsecLayer cs ℓ := by
  intro hcl
  unfold ConsecLayer at hcl
  -- the pair (layer, index) occurs at least twice in the cell list
  have h2le : 2 ≤ cs.countP
      (fun c => (Cell.index c == v) && (Cell.layer_id c == ℓ)) := by
    have hcount : cs.countP
        (fun c => (Cell.index c == v) && (Cell.layer_id c == ℓ)) =
        (cs.take j).countP
          (fun c => (Cell.index c == v) && (Cell.layer_id c == ℓ)) +
        (cs.drop j).countP
          (fun c => (Cell.index c == v) && (Cell.layer_id c == ℓ)) := by
      conv_lhs => rw [← List.take_append_drop j cs]
      rw [List.countP_append]
    have hmem_take : cs[i] ∈ cs.take j := by
      apply List.getElem?_mem (n := i)
      rw [List.getElem?_take_of_lt hij, List.getElem?_eq_getElem hi]
    have hmem_drop : cs[j] ∈ cs.drop j := by
      rw [List.drop_eq_getElem_cons hj]
      exact List.mem_cons_self _ _
    have h1 : 0 < (cs.take j).countP
        (fun c => (Cell.index c == v) && (Cell.layer_id c == ℓ)) :=
      List.countP_pos_iff.mpr ⟨cs[i], hmem_take, by simp [hli, hvi]⟩
    have h2 : 0 < (cs.drop j).countP
        (fun c => (Cell.index c == v) && (Cell.layer_id c == ℓ)) :=
      List.countP_pos_iff.mpr ⟨cs[j], hmem_drop, by simp [hlj, hvj]⟩
    omega
  -- that count equals the count of the index in the mapped layer list
  have hcnt_eq : ((layerCells cs ℓ).map Cell.index).count v = cs.countP
      (fun c => (Cell.index c == v) && (Cell.layer_id c == ℓ)) := by
    rw [List.count_eq_countP, List.countP_map]
    unfold layerCells
    rw [List.countP_filter]
    rfl
  -- but the range it is a permutation of has no duplicates
  have hnodup := List.nodup_range (layerCells cs ℓ).length
  have hle1 := List.nodup_iff_count_le_one.mp hnodup v
  have hperm_cnt := hcl.count_eq v
  omega

/-- C9: two distinct cells carrying the same (layer id, index) descriptor
are never silently accepted: `build_circuit` never returns a circuit on
such a collection, and — unless an empty-layer failure fires first (the
walk reaching that layer without one) — it fails with the
"cell index is not consecutive" error. -/
theorem c9_duplicate_descriptors (b : CircuitBuilder) (i j : Nat)
    (hij : i < j) (hj : j < b.cells.length)
    (hlayer : (b.cells.getD i ⟨0, 0, .Witness⟩).layer_id =
      (b.cells.getD j ⟨0, 0, .Witness⟩).layer_id)
    (hindex : (b.cells.getD i ⟨0, 0, .Witness⟩).index =
      (b.cells.getD j ⟨0, 0, .Witness⟩).index) :
    (∀ c, build_circuit b ≠ .ok c) ∧
    ((∀ g, build_circuit b ≠ .error (.emptyLayer g)) →
      build_circuit b = .error .nonConsecutive) := by
  have hi : i < b.cells.length := by omega
  rw [getD_eq_getElem hi ⟨0, 0, .Witness⟩, getD_eq_getElem hj ⟨0, 0, .Witness⟩]
    at hlayer hindex
  have hviol : ¬ ConsecLayer b.cells (b.cells[i].layer_id) :=
    not_consec_of_dup hi hj hij rfl rfl hlayer.symm hindex.symm
  cases hwalk : walkAux (sortCells b.cells) 0 0 [] with
  | ok lc =>
      exact absurd
        ((consec_of_walk_ok hwalk _).of_perm (sortCells_perm b.cells)) hviol
  | error e =>
      have hbuild := build_of_walk_error hwalk
      rcases walk_error_shape hwalk with rfl | ⟨g, rfl⟩
      · exact ⟨fun c hc => by rw [hbuild] at hc; exact absurd hc (by simp),
          fun _ => hbuild⟩
      · exact ⟨fun c hc => by rw [hbuild] at hc; exact absurd hc (by simp),
          fun hno => absurd hbuild (hno g)⟩

/-- C9 witness: the duplicate-descriptor builder is rejected with the
non-consecutive-index error. -/
theorem c9_witness_concrete :
    (∀ c, build_circuit dupBuilder ≠ .ok c) ∧
    ((∀ g, build_circuit dupBuilder ≠ .error (.emptyLayer g)) →
      build_circuit dupBuilder = .error .nonConsecutive) :=
  c9_duplicate_descriptors dupBuilder 0 1 (by decide) (by decide)
    (by decide) (by decide)

/-- C5 amended: the "empty layer", "witness outside input layer" and
"operand out of range" failures embed the layer id of the violation in
their panic message; the "non-consecutive index" and "input/output count
mismatch" failures are fixed strings that carry no layer id. -/
theorem c5_amended_layer_ids (l : Nat) :
    (BuildError.emptyLayer l).message.toList =
      "have no cell in layer_".toList ++ (toString l).toList ∧
    (BuildError.witnessCell l).message.toList =
      "exist witness cell in layer_".toList ++ (toString l).toList ∧
    (BuildError.noEnoughCell l).message.toList =
      "no enough cell in layer_".toList ++ (toString l).toList ∧
    (toString l).toList <:+: (BuildError.emptyLayer l).message.toList ∧
    (toString l).toList <:+: (BuildError.witnessCell l).message.toList ∧
    (toString l).toList <:+: (BuildError.noEnoughCell l).message.toList ∧
    BuildError.message .nonConsecutive = "cell index is not consecutive" ∧
    BuildError.message .wrongInOut = "wrong number with input or output" := by
  have he : (BuildError.emptyLayer l).message.toList =
      "have no cell in layer_".toList ++ (toString l).toList := by
    show (("have no cell in layer_" : String) ++ toString l).data = _
    rw [String.data_append]
    rfl
  have hw : (BuildError.witnessCell l).message.toList =
      "exist witness cell in layer_".toList ++ (toString l).toList := by
    show (("exist witness cell in layer_" : String) ++ toString l).data = _
    rw [String.data_append]
    rfl
  have hn : (BuildError.noEnoughCell l).message.toList =
      "no enough cell in layer_".toList ++ (toString l).toList := by
    show (("no enough cell in layer_" : String) ++ toString l).data = _
    rw [String.data_append]
    rfl
  refine ⟨he, hw, hn, ?_, ?_, ?_, rfl, rfl⟩
  · exact ⟨"have no cell in layer_".toList, [], by rw [he]; simp⟩
  · exact ⟨"exist witness cell in layer_".toList, [], by rw [hw]; simp⟩
  · exact ⟨"no enough cell in layer_".toList, [], by rw [hn]; simp⟩

end CircuitBuilderModel
